import Mathlib

/-
Verification of the message classification and field-extraction pipeline of
fwd_msg_update_sheet.py.

The development shallowly embeds the relevant parts of the source:

- a small backtracking pattern matcher modelling Python re.search with
  re.IGNORECASE for the fixed label patterns used by extract_fields
  (leftmost match, greedy with backtracking, the dot does not match a
  newline, the whitespace class is modelled on its ASCII range);
- extract_fields itself, with the fields dictionary modelled as a
  string-valued map updated in place while scanning lines in order;
- the CATEGORIES table (keywords copied verbatim from the source; the
  sheet identifiers and target groups come from the environment and are
  modelled as parameters);
- the message handler, modelled as the trace of external effects it
  attempts: spreadsheet appends and message forwards, each of which may
  succeed or fail according to an oracle, with the try/except blocks of
  the source letting the iteration continue after a failure.

Line splitting is modelled on the newline convention used by the
messages handled here (text.splitlines on \x0a).
-/

namespace FwdMsg

/-- Python whitespace class for the patterns, on its ASCII range. -/
def isPySpace (c : Char) : Bool :=
  c = ' ' || c = '\t' || c = '\n' || c = '\x0b' || c = '\x0c' || c = '\r'

/-- Model of str.lower, on the ASCII range. -/
def lowerStr (s : List Char) : List Char := s.map Char.toLower

/-- Model of str.strip applied to a captured group. -/
def pyStrip (s : List Char) : List Char :=
  ((s.dropWhile isPySpace).reverse.dropWhile isPySpace).reverse

/-- Accumulator-passing worker for text.splitlines. -/
def splitAux : List Char → List Char → List (List Char)
  | [], acc => if acc.isEmpty then [] else [acc.reverse]
  | c :: rest, acc =>
    if c = '\n' then acc.reverse :: splitAux rest [] else splitAux rest (c :: acc)

/-- Model of text.splitlines: no trailing empty line, empty text gives no lines. -/
def pySplitlines (s : List Char) : List (List Char) := splitAux s []

/-- Abstract syntax of the pattern fragments occurring before the final
capturing group in the regexes of extract_fields: literal characters
(matched case-insensitively under re.IGNORECASE), the whitespace star,
the dot star, a single optional literal, and concatenation. -/
inductive Pre where
  | eps : Pre
  | lit : Char → Pre
  | wsStar : Pre
  | dotStar : Pre
  | litOpt : Char → Pre
  | cat : Pre → Pre → Pre
deriving DecidableEq

/-- Remainders left by the greedy whitespace star, longest consumption first. -/
def wsStarRem : List Char → List (List Char)
  | [] => [[]]
  | c :: s => if isPySpace c then wsStarRem s ++ [c :: s] else [c :: s]

/-- Remainders left by the greedy dot star, longest consumption first; the
dot does not match a newline. -/
def dotStarRem : List Char → List (List Char)
  | [] => [[]]
  | c :: s => if c = '\n' then [c :: s] else dotStarRem s ++ [c :: s]

/-- All remainders a pattern fragment can leave after matching a prefix of
the input, listed in the backtracking order of the Python engine: greedy
alternatives first, later choice points backtracked first. -/
def preMatches : Pre → List Char → List (List Char)
  | .eps, s => [s]
  | .lit _, [] => []
  | .lit c, a :: s => if a.toLower = c.toLower then [s] else []
  | .wsStar, s => wsStarRem s
  | .dotStar, s => dotStarRem s
  | .litOpt _, [] => [[]]
  | .litOpt c, a :: s => if a.toLower = c.toLower then [s, a :: s] else [a :: s]
  | .cat a b, s => (preMatches a s).flatMap (preMatches b)

/-- Model of re.search for a pattern of the shape p(.+): scan start
positions left to right; at each start, the first remainder in
backtracking order that is nonempty is the capture of the final greedy
group, which extends to the end of the line. -/
def searchCapture (p : Pre) : List Char → Option (List Char)
  | [] => (preMatches p []).find? (fun r => !r.isEmpty)
  | c :: s =>
    match (preMatches p (c :: s)).find? (fun r => !r.isEmpty) with
    | some r => some r
    | none => searchCapture p s

/-- match.group(1).strip() for a line, when the pattern matches it. -/
def captureStr (p : Pre) (line : List Char) : Option String :=
  (searchCapture p line).map (fun r => String.mk (pyStrip r))

/-- Concatenation of literal characters. -/
def lits (s : String) : Pre :=
  s.data.foldr (fun c r => Pre.cat (Pre.lit c) r) Pre.eps

/-- Concatenation of a list of fragments. -/
def seqPre (l : List Pre) : Pre := l.foldr Pre.cat Pre.eps

/-- Branch\s*:\s*(.+) -/
def branchPre : Pre :=
  seqPre [lits "Branch", Pre.wsStar, Pre.lit ':', Pre.wsStar]

/-- Salesperson\s*:\s*(.+) -/
def salespersonPre : Pre :=
  seqPre [lits "Salesperson", Pre.wsStar, Pre.lit ':', Pre.wsStar]

/-- Customer\s*Name\s*:\s*(.+) -/
def customerNamePre : Pre :=
  seqPre [lits "Customer", Pre.wsStar, lits "Name", Pre.wsStar, Pre.lit ':', Pre.wsStar]

/-- Product\s*Description\s*:\s*(.+) -/
def productDescriptionPre : Pre :=
  seqPre [lits "Product", Pre.wsStar, lits "Description", Pre.wsStar, Pre.lit ':', Pre.wsStar]

/-- Item\s*Group\s*:\s*(.+) -/
def itemGroupPre : Pre :=
  seqPre [lits "Item", Pre.wsStar, lits "Group", Pre.wsStar, Pre.lit ':', Pre.wsStar]

/-- Remarks\s*:\s*(.+) -/
def remarksPre : Pre :=
  seqPre [lits "Remarks", Pre.wsStar, Pre.lit ':', Pre.wsStar]

/-- Exchange\s*:\s*(.+) -/
def exchangePre : Pre :=
  seqPre [lits "Exchange", Pre.wsStar, Pre.lit ':', Pre.wsStar]

/-- MRP\s*:\s*(.+) -/
def mrpPre : Pre :=
  seqPre [lits "MRP", Pre.wsStar, Pre.lit ':', Pre.wsStar]

/-- DP\s*:\s*(.+) -/
def dpPre : Pre :=
  seqPre [lits "DP", Pre.wsStar, Pre.lit ':', Pre.wsStar]

/-- Last\s*Purchase\s*Price\s*\(.*PP.*\)\s*:\s*(.+) -/
def lastPurchasePricePre : Pre :=
  seqPre [lits "Last", Pre.wsStar, lits "Purchase", Pre.wsStar, lits "Price",
    Pre.wsStar, Pre.lit '(', Pre.dotStar, lits "PP", Pre.dotStar, Pre.lit ')',
    Pre.wsStar, Pre.lit ':', Pre.wsStar]

/-- Negotiated\s*Price\s*\(.*NP.*\)\s*:\s*(.+) -/
def negotiatedPricePre : Pre :=
  seqPre [lits "Negotiated", Pre.wsStar, lits "Price",
    Pre.wsStar, Pre.lit '(', Pre.dotStar, lits "NP", Pre.dotStar, Pre.lit ')',
    Pre.wsStar, Pre.lit ':', Pre.wsStar]

/-- SRP\s*Price\s*:\s*(.+) -/
def srpPricePre : Pre :=
  seqPre [lits "SRP", Pre.wsStar, lits "Price", Pre.wsStar, Pre.lit ':', Pre.wsStar]

/-- Selling\s*Price\s*\(.*SP.*\)?\s*:\s*(.+) : note that the question mark of
the source regex applies only to the escaped closing parenthesis. -/
def sellingPricePre : Pre :=
  seqPre [lits "Selling", Pre.wsStar, lits "Price",
    Pre.wsStar, Pre.lit '(', Pre.dotStar, lits "SP", Pre.dotStar, Pre.litOpt ')',
    Pre.wsStar, Pre.lit ':', Pre.wsStar]

/-- The patterns dictionary of extract_fields, in declaration order. -/
def patterns : List (String × Pre) :=
  [("Branch", branchPre),
   ("Salesperson", salespersonPre),
   ("Customer Name", customerNamePre),
   ("Product Description", productDescriptionPre),
   ("Item Group", itemGroupPre),
   ("Remarks", remarksPre),
   ("Exchange", exchangePre),
   ("MRP", mrpPre),
   ("DP", dpPre),
   ("Last Purchase Price (PP)", lastPurchasePricePre),
   ("Negotiated Price (NP)", negotiatedPricePre),
   ("SRP Price", srpPricePre),
   ("Selling Price (SP)", sellingPricePre)]

/-- The keys of the fields dictionary of extract_fields, in declaration
order; list(fields.values()) enumerates the values in this order. -/
def fieldNames : List String :=
  ["Branch",
   "Salesperson",
   "Customer Name",
   "Product Description",
   "Item Group",
   "Remarks",
   "Exchange",
   "MRP",
   "DP",
   "Last Purchase Price (PP)",
   "Negotiated Price (NP)",
   "SRP Price",
   "Selling Price (SP)"]

/-- The fields dictionary right after its literal initialization: every
field name is bound to the sentinel MISSING. -/
def fieldsInit : String → String := fun _ => "MISSING"

/-- One iteration of the inner loop of extract_fields: if the pattern of
the field matches the line, the field is assigned the stripped first
capturing group, otherwise the dictionary is unchanged. -/
def stepF (line : List Char) (st : String → String) (kp : String × Pre) :
    String → String :=
  match captureStr kp.2 line with
  | some v => fun q => if q = kp.1 then v else st q
  | none => st

/-- The inner loop of extract_fields over the patterns dictionary. -/
def processLine (st : String → String) (line : List Char) : String → String :=
  patterns.foldl (stepF line) st

/-- The fields dictionary after the outer loop of extract_fields over the
lines of the text. -/
def extractMap (text : String) : String → String :=
  (pySplitlines text.data).foldl processLine fieldsInit

/-- extract_fields: the list of the field values, in declaration order. -/
def extract_fields (text : String) : List String :=
  fieldNames.map (extractMap text)

/-- One entry of the CATEGORIES table: keyword list, optional destination
spreadsheet identifier, destination group identifiers. -/
structure CategoryConfig where
  keywords : List String
  sheet_id : Option String
  targets : List Int
deriving DecidableEq

/-- The environment-supplied parts of the CATEGORIES table: the sheet
identifiers (None when the variable is unset) and the parsed target
group lists. -/
structure Env where
  sheetIdMobile : Option String
  targetGroupsMobile : List Int
  sheetIdLaptop : Option String
  targetGroupsLaptop : List Int
  sheetIdAccessories : Option String
  targetGroupsAccessories : List Int

/-- The CATEGORIES dictionary, keywords copied verbatim from the source. -/
def CATEGORIES (env : Env) : List (String × CategoryConfig) :=
  [("mobile",
    ⟨["item group : mobile phone", "item group : neckband", "item group : trimmer",
      "hair dryer", "hair straightner", "item group : earbuds", "item group : adaptors",
      "item group : audio accessories", "item group : power bank",
      "item group : headphone", "boat", "noise", "hapipola", "stufcool", "stuffcool"],
     env.sheetIdMobile, env.targetGroupsMobile⟩),
   ("laptop",
    ⟨["item group : laptop", "keyboard", "mouse", "item group : monitor",
      "computer accessories"],
     env.sheetIdLaptop, env.targetGroupsLaptop⟩),
   ("accessories",
    ⟨["item group : neckband", "item group : trimmer", "hair dryer",
      "hair straightner", "item group : earbuds", "item group : adaptors",
      "item group : audio accessories", "item group : power bank",
      "item group : headphone", "boat", "noise", "hapipola", "stufcool", "stuffcool"],
     env.sheetIdAccessories, env.targetGroupsAccessories⟩)]

/-- Model of the Python substring test: needle in hay. -/
def isSubstr (needle : List Char) : List Char → Bool
  | [] => needle.isEmpty
  | c :: s => needle.isPrefixOf (c :: s) || isSubstr needle s

/-- The keyword test of the handler for one category:
any(keyword.lower() in msg.lower() for keyword in config["keywords"]). -/
def matchesCategory (cfg : CategoryConfig) (msg : String) : Bool :=
  cfg.keywords.any (fun kw => isSubstr (lowerStr kw.data) (lowerStr msg.data))

/-- The identifiers of the categories whose keyword test succeeds on the
message, in table order. -/
def matchedCategories (table : List (String × CategoryConfig)) (msg : String) :
    List String :=
  (table.filter (fun c => matchesCategory c.2 msg)).map Prod.fst

/-- The reference timezone argument of datetime.now: either the local
timezone (the no-argument call) or a named pytz timezone. -/
inductive Timezone where
  | localtz : Timezone
  | named : String → Timezone
deriving DecidableEq

/-- One attempted external effect of the handler, together with its
outcome: a spreadsheet append of a row, or a forward of the message to a
target group. The failed variants record the operation whose try block
raised; the except block only logs, so iteration continues. -/
inductive Ev where
  | appended : String → String → List String → Ev
  | appendFailed : String → String → List String → Ev
  | forwarded : String → Int → String → Ev
  | forwardFailed : String → Int → String → Ev
deriving DecidableEq

/-- The category a trace event was issued from. -/
def catOf : Ev → String
  | .appended c _ _ => c
  | .appendFailed c _ _ => c
  | .forwarded c _ _ => c
  | .forwardFailed c _ _ => c

/-- Whether a trace event is a spreadsheet-append attempt. -/
def isAppendEv : Ev → Bool
  | .appended _ _ _ => true
  | .appendFailed _ _ _ => true
  | _ => false

/-- Whether a trace event is a forward attempt. -/
def isForwardEv : Ev → Bool
  | .forwarded _ _ _ => true
  | .forwardFailed _ _ _ => true
  | _ => false

/-- The row of an append attempt. -/
def rowOf : Ev → List String
  | .appended _ _ r => r
  | .appendFailed _ _ r => r
  | _ => []

/-- Step 1 of the handler body for a matched category: when the Google
Sheets client is up and the category has a sheet identifier, the append
of the row [current_ist_date] + extract_fields(msg) is attempted inside
a try block, so a failure is only logged. now models datetime.now
composed with strftime; sheetOk decides whether the append succeeds. -/
def sheetPart (gclientOk : Bool) (now : Timezone → String)
    (sheetOk : String → List String → Bool) (msg : String) (cat : String)
    (cfg : CategoryConfig) : List Ev :=
  match cfg.sheet_id, gclientOk with
  | some sid, true =>
    if sheetOk sid (now (Timezone.named "Asia/Kolkata") :: extract_fields msg) then
      [Ev.appended cat sid (now (Timezone.named "Asia/Kolkata") :: extract_fields msg)]
    else
      [Ev.appendFailed cat sid (now (Timezone.named "Asia/Kolkata") :: extract_fields msg)]
  | _, _ => []

/-- Step 2 of the handler body for a matched category: one forward of
the message per target group, each inside its own try block. -/
def fwdPart (fwdOk : Int → Bool) (msg : String) (cat : String)
    (cfg : CategoryConfig) : List Ev :=
  cfg.targets.map (fun tg =>
    if fwdOk tg then Ev.forwarded cat tg msg else Ev.forwardFailed cat tg msg)

/-- The effects attempted for one matched category: the sheet append,
then the forwards, in the order of the handler body. -/
def catDispatch (gclientOk : Bool) (now : Timezone → String)
    (sheetOk : String → List String → Bool) (fwdOk : Int → Bool)
    (msg : String) (cat : String) (cfg : CategoryConfig) : List Ev :=
  sheetPart gclientOk now sheetOk msg cat cfg ++ fwdPart fwdOk msg cat cfg

/-- The contribution of one category of the table to the handler trace:
its dispatch when its keyword test succeeds, nothing otherwise. -/
def catSeg (gclientOk : Bool) (now : Timezone → String)
    (sheetOk : String → List String → Bool) (fwdOk : Int → Bool)
    (msg : String) (c : String × CategoryConfig) : List Ev :=
  if matchesCategory c.2 msg then
    catDispatch gclientOk now sheetOk fwdOk msg c.1 c.2
  else []

/-- The handler, as the trace of external effects it attempts for a
message, looping over the CATEGORIES table in order. -/
def handler (env : Env) (gclientOk : Bool) (now : Timezone → String)
    (sheetOk : String → List String → Bool) (fwdOk : Int → Bool)
    (msg : String) : List Ev :=
  (CATEGORIES env).flatMap (catSeg gclientOk now sheetOk fwdOk msg)

/-- The operation a trace event attempted, forgetting its outcome. -/
def attemptEv : Ev → Ev
  | .appendFailed c s r => .appended c s r
  | .forwardFailed c t m => .forwarded c t m
  | e => e

/-- The attempted operations of a trace, in order, outcomes forgotten. -/
def attempts (tr : List Ev) : List Ev := tr.map attemptEv

/-- The patterns of the patterns dictionary bound to a given field name,
in dictionary order. -/
def keyPats (q : String) : List Pre :=
  patterns.filterMap (fun kp => if kp.1 = q then some kp.2 else none)

/-- The value the extraction assigns to a field with pattern p: the
stripped capture of the last line the pattern matches, or the MISSING
sentinel when no line matches. -/
def fieldValue (p : Pre) (text : String) : String :=
  (((pySplitlines text.data).filterMap (captureStr p)).getLast?).getD "MISSING"

/-- A concrete environment used to exercise the handler on examples. -/
def envW : Env := ⟨some "S", [5], none, [], some "A", [7, 8]⟩

/-- A concrete message matching both the mobile and the accessories rule. -/
def msgW : String := "Item Group : Neckband"

/-- A concrete clock whose date depends on the timezone it is asked for. -/
def clockA : Timezone → String :=
  fun tz => if tz = Timezone.named "Asia/Kolkata" then "2026-10-12" else "1999-01-01"

/-- A concrete clock answering the same date for every timezone. -/
def clockB : Timezone → String := fun _ => "2026-10-12"

/-! Helper lemmas about the extraction loop. -/

theorem stepF_apply (line : List Char) (st : String → String) (kp : String × Pre)
    (q : String) :
    stepF line st kp q =
      if kp.1 = q then (captureStr kp.2 line).getD (st q) else st q := by
  unfold stepF
  cases h : captureStr kp.2 line with
  | none => simp
  | some v =>
    by_cases hq : q = kp.1
    · simp [hq]
    · simp only [if_neg hq, if_neg (Ne.symm hq), Option.getD_some]

theorem foldl_stepF_apply (line : List Char) (ps : List (String × Pre)) :
    ∀ (st : String → String) (q : String),
    (ps.foldl (stepF line) st) q =
      (ps.filterMap (fun kp => if kp.1 = q then some kp.2 else none)).foldl
        (fun v p => (captureStr p line).getD v) (st q) := by
  induction ps with
  | nil => intro st q; rfl
  | cons kp rest ih =>
    intro st q
    rw [List.foldl_cons, ih, stepF_apply]
    by_cases h : kp.1 = q
    · simp [List.filterMap_cons, h]
    · simp [List.filterMap_cons, h]

theorem extractFold_apply (lines : List (List Char)) :
    ∀ (st : String → String) (q : String),
    (lines.foldl processLine st) q =
      lines.foldl
        (fun v line => (keyPats q).foldl (fun v p => (captureStr p line).getD v) v)
        (st q) := by
  induction lines with
  | nil => intro st q; rfl
  | cons l rest ih =>
    intro st q
    rw [List.foldl_cons, ih, List.foldl_cons]
    congr 1
    exact foldl_stepF_apply l patterns st q

theorem getLastD_cons' {α : Type} (a : α) (l : List α) :
    ∀ d, ((a :: l).getLast?).getD d = (l.getLast?).getD a := by
  induction l generalizing a with
  | nil => intro d; rfl
  | cons b l ih =>
    intro d
    rw [List.getLast?_cons_cons, ih b d, ih b a]

theorem foldl_getD_lastMatch (p : Pre) (lines : List (List Char)) :
    ∀ (v : String),
    lines.foldl (fun v line => (captureStr p line).getD v) v =
      ((lines.filterMap (captureStr p)).getLast?).getD v := by
  induction lines with
  | nil => intro v; rfl
  | cons l rest ih =>
    intro v
    rw [List.foldl_cons, ih]
    cases h : captureStr p l with
    | none => simp [List.filterMap_cons, h]
    | some c => simp [List.filterMap_cons, h, getLastD_cons']

theorem extractMap_single (k : String) (p : Pre) (hk : keyPats k = [p])
    (text : String) :
    extractMap text k = fieldValue p text := by
  unfold extractMap fieldValue
  rw [extractFold_apply, hk]
  simp only [List.foldl_cons, List.foldl_nil]
  rw [foldl_getD_lastMatch]
  rfl

theorem extractMap_fieldValue (kp : String × Pre) (h : kp ∈ patterns)
    (text : String) :
    extractMap text kp.1 = fieldValue kp.2 text := by
  fin_cases h <;> exact extractMap_single _ _ (by decide) text

/-! Helper lemmas about the substring test and the handler trace. -/

theorem isSubstr_iff (needle : List Char) :
    ∀ hay : List Char, isSubstr needle hay = true ↔ needle <:+: hay := by
  intro hay
  induction hay with
  | nil => simp [isSubstr, List.isEmpty_iff, List.infix_nil]
  | cons c s ih => simp [isSubstr, List.infix_cons_iff, ih]

theorem mem_sheetPart (gok : Bool) (now : Timezone → String)
    (sOk : String → List String → Bool) (msg cat : String) (cfg : CategoryConfig) :
    ∀ e ∈ sheetPart gok now sOk msg cat cfg,
      catOf e = cat ∧ isAppendEv e = true ∧ isForwardEv e = false ∧
        rowOf e = now (Timezone.named "Asia/Kolkata") :: extract_fields msg := by
  intro e he
  unfold sheetPart at he
  split at he
  · split at he <;> simp_all [catOf, isAppendEv, isForwardEv, rowOf]
  · simp at he

theorem mem_fwdPart (fOk : Int → Bool) (msg cat : String) (cfg : CategoryConfig) :
    ∀ e ∈ fwdPart fOk msg cat cfg,
      catOf e = cat ∧ isForwardEv e = true ∧ isAppendEv e = false := by
  intro e he
  unfold fwdPart at he
  rcases List.mem_map.1 he with ⟨tg, _, rfl⟩
  split <;> simp [catOf, isAppendEv, isForwardEv]

theorem catOf_catSeg (gok : Bool) (now : Timezone → String)
    (sOk : String → List String → Bool) (fOk : Int → Bool) (msg : String)
    (cc : String × CategoryConfig) :
    ∀ e ∈ catSeg gok now sOk fOk msg cc, catOf e = cc.1 := by
  intro e he
  unfold catSeg at he
  split at he
  · unfold catDispatch at he
    rcases List.mem_append.1 he with h | h
    · exact (mem_sheetPart gok now sOk msg cc.1 cc.2 e h).1
    · exact (mem_fwdPart fOk msg cc.1 cc.2 e h).1
  · simp at he

theorem attempts_append (a b : List Ev) : attempts (a ++ b) = attempts a ++ attempts b :=
  List.map_append attemptEv a b

theorem attempts_sheetPart_indep (gok : Bool) (now : Timezone → String)
    (s1 s2 : String → List String → Bool) (msg cat : String) (cfg : CategoryConfig) :
    attempts (sheetPart gok now s1 msg cat cfg) =
      attempts (sheetPart gok now s2 msg cat cfg) := by
  unfold attempts sheetPart
  rcases hs : cfg.sheet_id with _ | sid <;> cases gok <;> try rfl
  by_cases h1 : s1 sid (now (Timezone.named "Asia/Kolkata") :: extract_fields msg) = true <;>
    by_cases h2 : s2 sid (now (Timezone.named "Asia/Kolkata") :: extract_fields msg) = true <;>
    simp [h1, h2, attemptEv]

theorem attempts_fwdPart (fOk : Int → Bool) (msg cat : String) (cfg : CategoryConfig) :
    attempts (fwdPart fOk msg cat cfg) =
      cfg.targets.map (fun tg => Ev.forwarded cat tg msg) := by
  unfold attempts fwdPart
  rw [List.map_map]
  apply List.map_congr_left
  intro tg _
  dsimp only [Function.comp]
  split <;> rfl

theorem attempts_catSeg_indep (gok : Bool) (now : Timezone → String)
    (s1 s2 : String → List String → Bool) (f1 f2 : Int → Bool) (msg : String)
    (cc : String × CategoryConfig) :
    attempts (catSeg gok now s1 f1 msg cc) = attempts (catSeg gok now s2 f2 msg cc) := by
  unfold catSeg
  split
  · unfold catDispatch
    rw [attempts_append, attempts_append, attempts_fwdPart, attempts_fwdPart,
      attempts_sheetPart_indep gok now s1 s2 msg]
  · rfl

theorem attempts_handler_indep (env : Env) (gok : Bool) (now : Timezone → String)
    (s1 s2 : String → List String → Bool) (f1 f2 : Int → Bool) (msg : String) :
    attempts (handler env gok now s1 f1 msg) = attempts (handler env gok now s2 f2 msg) := by
  unfold handler
  simp only [CATEGORIES, List.flatMap_cons, List.flatMap_nil, List.append_nil]
  rw [attempts_append, attempts_append, attempts_append, attempts_append]
  rw [attempts_catSeg_indep gok now s1 s2 f1 f2 msg,
    attempts_catSeg_indep gok now s1 s2 f1 f2 msg,
    attempts_catSeg_indep gok now s1 s2 f1 f2 msg]

theorem catSeg_filter_ne (gok : Bool) (now : Timezone → String)
    (sOk : String → List String → Bool) (fOk : Int → Bool) (msg : String)
    (cc : String × CategoryConfig) (c : String) (h : cc.1 ≠ c) (q : Ev → Bool)
    (hq : ∀ e, catOf e ≠ c → q e = false) :
    (catSeg gok now sOk fOk msg cc).filter q = [] := by
  apply List.filter_eq_nil_iff.2
  intro e he
  have hcat := catOf_catSeg gok now sOk fOk msg cc e he
  rw [hq e (by rw [hcat]; exact h)]
  simp

theorem catSeg_filter_decomp (gok : Bool) (now : Timezone → String)
    (sOk : String → List String → Bool) (fOk : Int → Bool) (msg : String)
    (cc : String × CategoryConfig) (c : String) :
    (catSeg gok now sOk fOk msg cc).filter (fun e => catOf e == c) =
      (catSeg gok now sOk fOk msg cc).filter (fun e => catOf e == c && isAppendEv e) ++
      (catSeg gok now sOk fOk msg cc).filter (fun e => catOf e == c && isForwardEv e) := by
  unfold catSeg
  split
  · unfold catDispatch
    rw [List.filter_append, List.filter_append, List.filter_append]
    have hA := mem_sheetPart gok now sOk msg cc.1 cc.2
    have hF := mem_fwdPart fOk msg cc.1 cc.2
    have h1 : (sheetPart gok now sOk msg cc.1 cc.2).filter
        (fun e => catOf e == c && isAppendEv e) =
        (sheetPart gok now sOk msg cc.1 cc.2).filter (fun e => catOf e == c) :=
      List.filter_congr (fun e he => by rw [(hA e he).2.1, Bool.and_true])
    have h2 : (fwdPart fOk msg cc.1 cc.2).filter
        (fun e => catOf e == c && isAppendEv e) = [] :=
      List.filter_eq_nil_iff.2 (fun e he => by simp [(hF e he).2.2])
    have h3 : (sheetPart gok now sOk msg cc.1 cc.2).filter
        (fun e => catOf e == c && isForwardEv e) = [] :=
      List.filter_eq_nil_iff.2 (fun e he => by simp [(hA e he).2.2.1])
    have h4 : (fwdPart fOk msg cc.1 cc.2).filter
        (fun e => catOf e == c && isForwardEv e) =
        (fwdPart fOk msg cc.1 cc.2).filter (fun e => catOf e == c) :=
      List.filter_congr (fun e he => by rw [(hF e he).2.1, Bool.and_true])
    rw [h1, h2, h3, h4]
    simp
  · rfl

theorem flatMap_filter_ne (gok : Bool) (now : Timezone → String)
    (sOk : String → List String → Bool) (fOk : Int → Bool) (msg : String)
    (c : String) (q : Ev → Bool) (hq : ∀ e, catOf e ≠ c → q e = false) :
    ∀ (table : List (String × CategoryConfig)), (∀ cc ∈ table, cc.1 ≠ c) →
    (table.flatMap (catSeg gok now sOk fOk msg)).filter q = [] := by
  intro table h
  apply List.filter_eq_nil_iff.2
  intro e he
  rcases List.mem_flatMap.1 he with ⟨cc, hcc, hseg⟩
  have hcat := catOf_catSeg gok now sOk fOk msg cc e hseg
  rw [hq e (by rw [hcat]; exact h cc hcc)]
  simp

theorem flatMap_filter_decomp (gok : Bool) (now : Timezone → String)
    (sOk : String → List String → Bool) (fOk : Int → Bool) (msg : String)
    (c : String) :
    ∀ (table : List (String × CategoryConfig)),
    table.Pairwise (fun a b => a.1 ≠ b.1) →
    (table.flatMap (catSeg gok now sOk fOk msg)).filter (fun e => catOf e == c) =
      (table.flatMap (catSeg gok now sOk fOk msg)).filter
        (fun e => catOf e == c && isAppendEv e) ++
      (table.flatMap (catSeg gok now sOk fOk msg)).filter
        (fun e => catOf e == c && isForwardEv e) := by
  intro table
  induction table with
  | nil => simp
  | cons cc rest ih =>
    intro hp
    rcases List.pairwise_cons.1 hp with ⟨hne, hrest⟩
    rw [List.flatMap_cons, List.filter_append, List.filter_append, List.filter_append]
    by_cases hc : cc.1 = c
    · have hr : ∀ dd ∈ rest, dd.1 ≠ c := by
        intro dd hdd hh
        exact hne dd hdd (hc.trans hh.symm)
      rw [flatMap_filter_ne gok now sOk fOk msg c _
          (fun e hce => by simp [beq_eq_false_iff_ne.2 hce]) rest hr,
        flatMap_filter_ne gok now sOk fOk msg c _
          (fun e hce => by simp [beq_eq_false_iff_ne.2 hce]) rest hr,
        flatMap_filter_ne gok now sOk fOk msg c _
          (fun e hce => by simp [beq_eq_false_iff_ne.2 hce]) rest hr]
      simp only [List.append_nil]
      exact catSeg_filter_decomp gok now sOk fOk msg cc c
    · have e1 := catSeg_filter_ne gok now sOk fOk msg cc c hc
        (fun e => catOf e == c) (fun e hce => beq_eq_false_iff_ne.2 hce)
      have e2 := catSeg_filter_ne gok now sOk fOk msg cc c hc
        (fun e => catOf e == c && isAppendEv e)
        (fun e hce => by simp [beq_eq_false_iff_ne.2 hce])
      have e3 := catSeg_filter_ne gok now sOk fOk msg cc c hc
        (fun e => catOf e == c && isForwardEv e)
        (fun e hce => by simp [beq_eq_false_iff_ne.2 hce])
      rw [e1, e2, e3]
      simp only [List.nil_append]
      exact ih hrest

theorem handler_append_row (env : Env) (gok : Bool) (now : Timezone → String)
    (sOk : String → List String → Bool) (fOk : Int → Bool) (msg : String) :
    ∀ e ∈ handler env gok now sOk fOk msg, isAppendEv e = true →
      rowOf e = now (Timezone.named "Asia/Kolkata") :: extract_fields msg := by
  intro e he happ
  unfold handler at he
  rcases List.mem_flatMap.1 he with ⟨cc, _, hseg⟩
  unfold catSeg at hseg
  split at hseg
  · unfold catDispatch at hseg
    rcases List.mem_append.1 hseg with h | h
    · exact (mem_sheetPart gok now sOk msg cc.1 cc.2 e h).2.2.2
    · have := (mem_fwdPart fOk msg cc.1 cc.2 e h).2.2
      rw [this] at happ
      cases happ
  · simp at hseg

theorem searchCapture_isSome (p : Pre) :
    ∀ (s : List Char) (i : Nat) (r : List Char),
    r ∈ preMatches p (s.drop i) → r ≠ [] → (searchCapture p s).isSome = true := by
  intro s
  induction s with
  | nil =>
    intro i r hr hne
    rw [List.drop_nil] at hr
    unfold searchCapture
    exact List.find?_isSome.2 ⟨r, hr, by simp [List.isEmpty_iff, hne]⟩
  | cons c s ih =>
    intro i r hr hne
    cases i with
    | zero =>
      simp only [List.drop_zero] at hr
      unfold searchCapture
      cases hfind : (preMatches p (c :: s)).find? (fun r => !r.isEmpty) with
      | some r' => simp
      | none =>
        exfalso
        have := List.find?_eq_none.1 hfind r hr
        simp [List.isEmpty_iff, hne] at this
    | succ j =>
      rw [List.drop_succ_cons] at hr
      unfold searchCapture
      cases hfind : (preMatches p (c :: s)).find? (fun r => !r.isEmpty) with
      | some r' => simp
      | none => exact ih j r hr hne

theorem handler_now_congr (env : Env) (gok : Bool) (now now' : Timezone → String)
    (sOk : String → List String → Bool) (fOk : Int → Bool) (msg : String)
    (h : now (Timezone.named "Asia/Kolkata") = now' (Timezone.named "Asia/Kolkata")) :
    handler env gok now sOk fOk msg = handler env gok now' sOk fOk msg := by
  unfold handler
  congr 1
  funext cc
  simp only [catSeg, catDispatch, sheetPart, h]

/-! Claim theorems. -/

/-- C1 counterexample: both lines of the text Branch : A, newline,
Branch : B match the Branch pattern, with captures A and B; the extracted
Branch value is B, the capture of the LATER line, so the first matching
line does not win as the claim states. -/
theorem extract_first_match_counterexample :
    pySplitlines ("Branch : A\nBranch : B".data) =
      ["Branch : A".data, "Branch : B".data] ∧
    captureStr branchPre ("Branch : A".data) = some "A" ∧
    captureStr branchPre ("Branch : B".data) = some "B" ∧
    extractMap "Branch : A\nBranch : B" "Branch" = "B" ∧
    extractMap "Branch : A\nBranch : B" "Branch" ≠ "A" := by decide

/-- C1 amended: last match wins. For every text, the value extracted for
each field is the trimmed first capturing group of the LATEST line whose
pattern matches, scanning lines in original order (later matching lines
overwrite earlier ones), and the MISSING sentinel when no line matches. -/
theorem extract_fields_last_match_wins (text : String) :
    extract_fields text = patterns.map (fun kp => fieldValue kp.2 text) := by
  simp only [extract_fields, fieldNames, patterns, List.map_cons, List.map_nil,
    List.cons.injEq, and_true]
  refine ⟨?_, ?_, ?_, ?_, ?_, ?_, ?_, ?_, ?_, ?_, ?_, ?_, ?_⟩ <;>
    exact extractMap_single _ _ (by decide) text

/-- C2: extraction is total and never fails: for every input text the
function returns a value for every one of the 13 configured fields (the
result is exactly the field list in order), and a field whose pattern
matches no line of the text holds exactly the MISSING sentinel. Totality
is by construction: extract_fields is a total function on strings. -/
theorem extract_fields_total_missing (text : String) (k : String) (p : Pre)
    (hk : (k, p) ∈ patterns)
    (hnone : ∀ line ∈ pySplitlines text.data, captureStr p line = none) :
    (extract_fields text).length = fieldNames.length ∧
    extract_fields text = fieldNames.map (extractMap text) ∧
    extractMap text k = "MISSING" := by
  refine ⟨by simp [extract_fields], rfl, ?_⟩
  rw [show extractMap text k = fieldValue p text from
    extractMap_fieldValue (k, p) hk text]
  unfold fieldValue
  rw [List.filterMap_eq_nil_iff.2 hnone]
  rfl

/-- C2 witness: the theorem applied to a text with no matching line and
the Branch field. -/
theorem extract_fields_total_missing_witness :
    (extract_fields "hello").length = fieldNames.length ∧
    extract_fields "hello" = fieldNames.map (extractMap "hello") ∧
    extractMap "hello" "Branch" = "MISSING" :=
  extract_fields_total_missing "hello" "Branch" branchPre (by decide) (by decide)

/-- C3: routing is an iff over keywords: for every table and text, the
matched identifiers all come from the table, an identifier is matched iff
some entry carrying it has a keyword that occurs as a case-insensitive
substring of the text, and a rule with an empty keyword list matches no
text. -/
theorem route_subset_iff (table : List (String × CategoryConfig)) (msg : String) :
    (∀ id ∈ matchedCategories table msg, id ∈ table.map Prod.fst) ∧
    (∀ id, id ∈ matchedCategories table msg ↔
      ∃ cfg, (id, cfg) ∈ table ∧ ∃ kw ∈ cfg.keywords,
        (lowerStr kw.data) <:+: (lowerStr msg.data)) ∧
    (∀ cfg : CategoryConfig, cfg.keywords = [] → matchesCategory cfg msg = false) := by
  refine ⟨?_, ?_, ?_⟩
  · intro id hid
    rcases List.mem_map.1 hid with ⟨cc, hcc, rfl⟩
    exact List.mem_map.2 ⟨cc, (List.mem_filter.1 hcc).1, rfl⟩
  · intro id
    constructor
    · intro hid
      rcases List.mem_map.1 hid with ⟨cc, hcc, rfl⟩
      rcases List.mem_filter.1 hcc with ⟨hmem, hmatch⟩
      rcases List.any_eq_true.1 hmatch with ⟨kw, hkw, hsub⟩
      exact ⟨cc.2, by simpa using hmem, kw, hkw, (isSubstr_iff _ _).1 hsub⟩
    · rintro ⟨cfg, hmem, kw, hkw, hsub⟩
      refine List.mem_map.2 ⟨(id, cfg), List.mem_filter.2 ⟨hmem, ?_⟩, rfl⟩
      exact List.any_eq_true.2 ⟨kw, hkw, (isSubstr_iff _ _).2 hsub⟩
  · intro cfg h
    simp [matchesCategory, h]

/-- C3 witness: the iff direction of the theorem instantiated on the
mobile rule and a message containing the keyword boat in mixed case. -/
theorem route_subset_iff_witness :
    "mobile" ∈ matchedCategories (CATEGORIES ⟨none, [], none, [], none, []⟩)
      "New boAt Airdopes in stock" :=
  ((route_subset_iff (CATEGORIES ⟨none, [], none, [], none, []⟩)
      "New boAt Airdopes in stock").2.1 "mobile").2
    ⟨⟨["item group : mobile phone", "item group : neckband", "item group : trimmer",
       "hair dryer", "hair straightner", "item group : earbuds", "item group : adaptors",
       "item group : audio accessories", "item group : power bank",
       "item group : headphone", "boat", "noise", "hapipola", "stufcool", "stuffcool"],
      none, []⟩,
     by decide, "boat", by decide, by decide⟩

/-- C4 counterexample: a line of the form label colon value with no
parenthetical abbreviation does not match the Selling Price (SP) pattern,
nor the PP or NP patterns: the fields stay MISSING, refuting the claim
that the parenthetical is optional for every price-style field. -/
theorem price_paren_optional_counterexample :
    extractMap "Selling Price : 100" "Selling Price (SP)" = "MISSING" ∧
    extractMap "Last Purchase Price : 50" "Last Purchase Price (PP)" = "MISSING" ∧
    extractMap "Negotiated Price : 70" "Negotiated Price (NP)" = "MISSING" := by decide

/-- C4 amended: in the Selling Price (SP) pattern only the closing
parenthesis of the abbreviation is optional: the opening parenthesis and
the abbreviation must be present, so the full parenthetical and the
unclosed one both match while a line without any parenthetical leaves the
field MISSING; the PP and NP patterns require the complete parenthetical. -/
theorem price_paren_amended :
    extractMap "Selling Price (SP) : 100" "Selling Price (SP)" = "100" ∧
    extractMap "Selling Price (SP : 100" "Selling Price (SP)" = "100" ∧
    extractMap "Selling Price : 100" "Selling Price (SP)" = "MISSING" ∧
    extractMap "Last Purchase Price (PP) : 50" "Last Purchase Price (PP)" = "50" ∧
    extractMap "Last Purchase Price : 50" "Last Purchase Price (PP)" = "MISSING" ∧
    extractMap "Negotiated Price (NP) : 70" "Negotiated Price (NP)" = "70" ∧
    extractMap "Negotiated Price : 70" "Negotiated Price (NP)" = "MISSING" := by decide

/-- C5: failure isolation. The sequence of operations the handler attempts
(sheet appends and forwards of every matched category, in order) is the
same whatever subset of appends and forwards fails: a failed append or
forward suppresses no later attempt of any category. Stated, as in the
claim, for messages matching at least two categories. -/
theorem dispatch_failure_isolation (env : Env) (gok : Bool)
    (now : Timezone → String) (s1 s2 : String → List String → Bool)
    (f1 f2 : Int → Bool) (msg : String)
    (_hmulti : 2 ≤ (matchedCategories (CATEGORIES env) msg).length) :
    attempts (handler env gok now s1 f1 msg) =
      attempts (handler env gok now s2 f2 msg) :=
  attempts_handler_indep env gok now s1 s2 f1 f2 msg

/-- C5 witness: a message matching the mobile and the accessories rule,
with everything succeeding on one side and everything failing on the
other. -/
theorem dispatch_failure_isolation_witness :
    2 ≤ (matchedCategories (CATEGORIES envW) msgW).length ∧
    attempts (handler envW true clockB (fun _ _ => true) (fun _ => true) msgW) =
      attempts (handler envW true clockB (fun _ _ => false) (fun _ => false) msgW) :=
  ⟨by decide,
   dispatch_failure_isolation envW true clockB (fun _ _ => true) (fun _ _ => false)
     (fun _ => true) (fun _ => false) msgW (by decide)⟩

/-- C6: per-category effect order: among the trace events of any one
category, the append attempts form a prefix and the forward attempts the
remainder, so the sheet append of a matched category is attempted before
any forward of that category. -/
theorem handler_append_before_forward (env : Env) (gok : Bool)
    (now : Timezone → String) (sOk : String → List String → Bool)
    (fOk : Int → Bool) (msg : String) (c : String) :
    (handler env gok now sOk fOk msg).filter (fun e => catOf e == c) =
      (handler env gok now sOk fOk msg).filter
        (fun e => catOf e == c && isAppendEv e) ++
      (handler env gok now sOk fOk msg).filter
        (fun e => catOf e == c && isForwardEv e) := by
  unfold handler
  apply flatMap_filter_decomp
  simp [CATEGORIES, List.pairwise_cons]

/-- C7: the concrete scenario: the four-line message routes exactly to
the mobile category, and the extractor yields Mumbai, Raj, Mobile Phone
and 9999 for Branch, Salesperson, Item Group and MRP, with every other
configured field MISSING. -/
theorem concrete_scenario (env : Env) :
    matchedCategories (CATEGORIES env)
      "Branch : Mumbai\nSalesperson : Raj\nItem Group : Mobile Phone\nMRP : 9999" =
      ["mobile"] ∧
    extract_fields
      "Branch : Mumbai\nSalesperson : Raj\nItem Group : Mobile Phone\nMRP : 9999" =
      ["Mumbai", "Raj", "MISSING", "MISSING", "Mobile Phone", "MISSING", "MISSING",
       "9999", "MISSING", "MISSING", "MISSING", "MISSING", "MISSING"] :=
  ⟨rfl, by decide⟩

/-- C8: every appended row is the date of the fixed reference timezone
Asia/Kolkata followed by the extracted field values, and the whole trace
depends on the clock only through that timezone: two clocks agreeing on
Asia/Kolkata (but possibly differing on the local timezone) give the same
trace. -/
theorem dispatch_row_shape (env : Env) (gok : Bool) (now now' : Timezone → String)
    (sOk : String → List String → Bool) (fOk : Int → Bool) (msg : String)
    (h : now (Timezone.named "Asia/Kolkata") = now' (Timezone.named "Asia/Kolkata")) :
    (∀ e ∈ handler env gok now sOk fOk msg, isAppendEv e = true →
      rowOf e = now (Timezone.named "Asia/Kolkata") :: extract_fields msg) ∧
    handler env gok now sOk fOk msg = handler env gok now' sOk fOk msg :=
  ⟨handler_append_row env gok now sOk fOk msg,
   handler_now_congr env gok now now' sOk fOk msg h⟩

/-- C8 witness: the theorem applied to two clocks differing on the local
timezone, and to the concrete append event of the mobile category. -/
theorem dispatch_row_shape_witness :
    rowOf (Ev.appended "mobile" "S" ("2026-10-12" :: extract_fields msgW)) =
      clockA (Timezone.named "Asia/Kolkata") :: extract_fields msgW ∧
    handler envW true clockA (fun _ _ => true) (fun _ => true) msgW =
      handler envW true clockB (fun _ _ => true) (fun _ => true) msgW :=
  ⟨(dispatch_row_shape envW true clockA clockB (fun _ _ => true) (fun _ => true) msgW
      (by decide)).1
    (Ev.appended "mobile" "S" ("2026-10-12" :: extract_fields msgW)) (by decide) rfl,
   (dispatch_row_shape envW true clockA clockB (fun _ _ => true) (fun _ => true) msgW
      (by decide)).2⟩

/-- C9: fixed arity and order: for every input text extract_fields
returns exactly 13 values, in the declared field order, and every
appended row has exactly 14 cells. -/
theorem fixed_arity_order (text : String) (env : Env) (gok : Bool)
    (now : Timezone → String) (sOk : String → List String → Bool)
    (fOk : Int → Bool) (msg : String) (e : Ev) :
    (extract_fields text).length = 13 ∧
    extract_fields text =
      [extractMap text "Branch", extractMap text "Salesperson",
       extractMap text "Customer Name", extractMap text "Product Description",
       extractMap text "Item Group", extractMap text "Remarks",
       extractMap text "Exchange", extractMap text "MRP", extractMap text "DP",
       extractMap text "Last Purchase Price (PP)",
       extractMap text "Negotiated Price (NP)", extractMap text "SRP Price",
       extractMap text "Selling Price (SP)"] ∧
    (e ∈ handler env gok now sOk fOk msg → isAppendEv e = true →
      (rowOf e).length = 14) := by
  refine ⟨by simp [extract_fields, fieldNames], rfl, fun he happ => ?_⟩
  rw [handler_append_row env gok now sOk fOk msg e he happ]
  simp [extract_fields, fieldNames]

/-- C9 witness: the theorem applied to a concrete text and the concrete
append event of the mobile category. -/
theorem fixed_arity_order_witness :
    (extract_fields "x").length = 13 ∧
    (rowOf (Ev.appended "mobile" "S" ("2026-10-12" :: extract_fields msgW))).length = 14 :=
  ⟨(fixed_arity_order "x" envW true clockB (fun _ _ => true) (fun _ => true) msgW
      (Ev.appended "mobile" "S" ("2026-10-12" :: extract_fields msgW))).1,
   (fixed_arity_order "x" envW true clockB (fun _ _ => true) (fun _ => true) msgW
      (Ev.appended "mobile" "S" ("2026-10-12" :: extract_fields msgW))).2.2
     (by decide) rfl⟩

/-- C10: label matching is unanchored: whenever a pattern matches at any
offset inside a line, leaving a nonempty remainder for the capture, the
search succeeds; concretely, the line Sub-Branch : East sets the Branch
field to East, and the line MRP/DP : 100 sets the DP field to 100. -/
theorem unanchored_label_matching (p : Pre) (s : List Char) (i : Nat)
    (r : List Char) (hr : r ∈ preMatches p (s.drop i)) (hne : r ≠ []) :
    (searchCapture p s).isSome = true ∧
    extractMap "Sub-Branch : East" "Branch" = "East" ∧
    extractMap "MRP/DP : 100" "DP" = "100" :=
  ⟨searchCapture_isSome p s i r hr hne, by decide, by decide⟩

/-- C10 witness: the Branch pattern matching two characters into a line. -/
theorem unanchored_label_matching_witness :
    (searchCapture branchPre ("xxBranch : Y".data)).isSome = true ∧
    extractMap "Sub-Branch : East" "Branch" = "East" ∧
    extractMap "MRP/DP : 100" "DP" = "100" :=
  unanchored_label_matching branchPre ("xxBranch : Y".data) 2 ("Y".data)
    (by decide) (by decide)

end FwdMsg

